import Mathlib

/-!
Shallow embedding of the SL1S sanitizer (src/sl1s_sanitizer.py) and proofs
about its validation pipeline.

Modelling conventions:
* Python strings are Lean `String`s; all character-level operations
  (startswith, endswith, lower, strip, basename, split) are defined on
  `String.data` with Python semantics.
* The archive is abstract: `Archive` carries the path string, whether the
  path exists, the result of opening the zip (the ordered entry-name list,
  or an open failure), and the decoded line list of each entry's content.
* Error and warning messages are an inductive `Msg`; each constructor is
  one f-string template of the source, carrying the interpolated values.
* Python `set` construction and iteration (the subfolder-warning loop and
  the base-name set rendered into one error) is modelled by an explicit
  enumeration parameter `enum : List String → List String`; a run of the
  CPython program corresponds to some `ValidEnum` choice (hash-seed
  dependent).  All other computations are deterministic.
* `configparser` is modelled at the line level following CPython (>= 3.12
  semantics: strict duplicate detection, full-line comments '#'/';',
  multiline continuations, value join runs in a `finally`).  Value
  interpolation (`BasicInterpolation`) is modelled only for values that
  contain no '%': such values are returned verbatim, and a value
  containing '%' is modelled as a lookup failure.  Every config text
  appearing in this development is '%'-free.
* Python `\d` is modelled as the ASCII digits; entry names and config
  values considered here are ASCII.
-/

deriving instance DecidableEq for Except

namespace SL1S

/-- One validation message.  Each constructor corresponds to one f-string in
the source; payloads are the interpolated values. -/
inductive Msg where
  | fileNotFound (path : String)
  | emptyOrNested
  | subfolder (folderName : String)
  | notValidZip
  | errorReadingZip (e : String)
  | requiredMissing (name : String)
  | errorCheckingRequired (e : String)
  | configNotFound
  | errorReadingConfig (e : String)
  | noLayerImages
  | badNamingPattern (file : String)
  | multipleBaseNames (names : List String)
  | missingNumbers (missing : List Nat)
  | notStartAtZero (start : String)
  | outOfRange (n : Nat)
  | jobDirMismatch (imageBase configBase : String)
  | numFastNotInt
  | numFastCountMismatch (numFast : Int) (count : Nat)
  | lastNumberMismatch (maxNumber : Nat) (numFastMinusOne : Int)
  | errorCheckingConsistency (e : String)
  | errorCheckingImages (e : String)
deriving DecidableEq, Repr

/-- Python `str.startswith`: character-level prefix test. -/
def pyStartsWith (s p : String) : Bool := s.data.take p.data.length = p.data

/-- Python `str.endswith`: character-level suffix test. -/
def pyEndsWith (s p : String) : Bool := s.data.reverse.take p.data.length = p.data.reverse

/-- Python `sub in s`: substring containment. -/
def pyContains (s sub : String) : Bool :=
  (List.range (s.data.length + 1)).any (fun i => (s.data.drop i).take sub.data.length = sub.data)

/-- Python `str.lower` (ASCII model). -/
def pyLower (s : String) : String := ⟨s.data.map Char.toLower⟩

/-- Python `str.strip()` with no argument: remove leading and trailing whitespace. -/
def pyStrip (s : String) : String :=
  ⟨((s.data.dropWhile Char.isWhitespace).reverse.dropWhile Char.isWhitespace).reverse⟩

/-- Python `str.rstrip()` with no argument. -/
def pyRstrip (s : String) : String := ⟨(s.data.reverse.dropWhile Char.isWhitespace).reverse⟩

/-- Python `str.rstrip(c)` for a single strip character `c`. -/
def rstripChar (c : Char) (s : String) : String :=
  ⟨(s.data.reverse.dropWhile (fun x => x = c)).reverse⟩

/-- Python `f.count('/')`. -/
def countSlash (f : String) : Nat := f.data.count '/'

/-- Python `f.split('/')[0]`: the part before the first slash. -/
def topFolder (f : String) : String := ⟨f.data.takeWhile (fun c => c ≠ '/')⟩

/-- Python `os.path.basename`: the part after the last slash. -/
def pyBasename (s : String) : String := ⟨(s.data.reverse.takeWhile (fun c => c ≠ '/')).reverse⟩

/-- Python `f"{n:05d}"` for a natural number: left-pad with zeros to width 5. -/
def fmt05 (n : Nat) : String :=
  ⟨List.replicate (5 - (toString n).data.length) '0' ++ (toString n).data⟩

/-- ASCII decimal digit (the model of the regex class `\d`). -/
def isDigitCh (c : Char) : Bool := 48 ≤ c.toNat && c.toNat ≤ 57

/-- Numeric value of a decimal digit string, as computed by Python `int` on
an all-digit string. -/
def digitsVal (ds : List Char) : Nat := ds.foldl (fun a c => 10 * a + (c.toNat - 48)) 0

/-- Case-insensitive comparison of a prefix of `r` with the (already
lowercase) pattern `pat`. -/
def ciTake (r pat : List Char) : Bool := (r.take pat.length).map Char.toLower = pat

/-- The regex `(.+?)(\d{5})\.(png|jpg|jpeg)$` under `re.search` with
`re.IGNORECASE`, from `_check_image_files` (src/sl1s_sanitizer.py:141).
The anchored tail forces the match to end at the end of the string (or just
before one trailing newline, which `$` also accepts); the extension and the
five digits are then at fixed positions and `re.search` takes the leftmost
possible start, so group 1 is the longest newline-free run ending right
before the digits.  `mkLayer` validates the digit block and the base and
returns `(group 1, int(group 2))`. -/
def mkLayer (baseRev ds : List Char) : Option (String × Nat) :=
  if ds.length = 5 ∧ ds.all isDigitCh ∧ baseRev ≠ [] then
    some (⟨baseRev.reverse⟩, digitsVal ds.reverse)
  else none

/-- `$` also matches just before a single trailing newline: drop it from
the reversed character list. -/
def newlineAdjust (r0 : List Char) : List Char :=
  if r0.head? = some '\n' then r0.tail else r0

/-- The extension alternation `\.(png|jpg|jpeg)` at the end of the string,
on the reversed character list: the matched length, if any. -/
def extLenOf (r : List Char) : Option Nat :=
  if ciTake r ['g', 'n', 'p', '.'] then some 4
  else if ciTake r ['g', 'p', 'j', '.'] then some 4
  else if ciTake r ['g', 'e', 'p', 'j', '.'] then some 5
  else none

/-- The search on the reversed character list: extension, then the five
digits, then the base. -/
def matchRev (r : List Char) : Option (String × Nat) :=
  match extLenOf r with
  | none => none
  | some k =>
    mkLayer (((r.drop k).drop 5).takeWhile (fun c => c ≠ '\n')) ((r.drop k).take 5)

/-- The search over a filename: extension, digit block, base (see
`mkLayer`). -/
def matchLayer (s : String) : Option (String × Nat) :=
  matchRev (newlineAdjust s.data.reverse)

/-- `_is_thumbnail_or_preview_file` (src/sl1s_sanitizer.py:117). -/
def reservedEntry (f : String) : Bool :=
  pyStartsWith f "thumbnail/" || pyStartsWith f "preview/"

/-- `_is_layer_image` (src/sl1s_sanitizer.py:121): image extension
(case-insensitive), not under thumbnail/ or preview/, and no slash. -/
def isLayerImage (f : String) : Bool :=
  (pyEndsWith (pyLower f) ".png" || pyEndsWith (pyLower f) ".jpg"
    || pyEndsWith (pyLower f) ".jpeg")
  && !reservedEntry f
  && !(f.data.contains '/')

/-- Result of `zipfile.ZipFile(path)`: `badZip` is `zipfile.BadZipFile`,
`other` is any other exception with its `str(e)`. -/
inductive ZipErr where
  | badZip
  | other (msg : String)
deriving DecidableEq, Repr

/-- `str(e)` for a zip-open failure. -/
def zipErrStr : ZipErr → String
  | .badZip => "File is not a zip file"
  | .other m => m

/-- The validated file, as the core consumes it: the input path, whether it
exists, the archive-open outcome with the ordered entry-name list, and the
decoded text lines of each entry. -/
structure Archive where
  path : String
  pathExists : Bool
  zipOpen : Except ZipErr (List String)
  content : String → List String

/-- The top-level folder names of non-reserved nested entries — the list
whose `set` the source builds at src/sl1s_sanitizer.py:63. -/
def offendingFolders (fileList : List String) : List String :=
  (fileList.filter (fun f => 0 < countSlash f && !reservedEntry f)).map topFolder

/-- A legitimate enumeration of Python sets: it returns the distinct
elements of its input, in some order (the order a given CPython run's hash
seed produces). -/
def ValidEnum (g : List String → List String) : Prop :=
  ∀ l, (g l).Nodup ∧ ∀ x, x ∈ g l ↔ x ∈ l

/-- `_check_zip_structure` (src/sl1s_sanitizer.py:45): emits the fatal
"empty or nested" error when no entry has at most one slash, else one
warning per distinct top-level folder of non-reserved nested entries.
Returns (errors, warnings). -/
def checkZipStructure (enum : List String → List String)
    (z : Except ZipErr (List String)) : List Msg × List Msg :=
  match z with
  | .error .badZip => ([.notValidZip], [])
  | .error (.other m) => ([.errorReadingZip m], [])
  | .ok fileList =>
    let rootFiles := fileList.filter (fun f => countSlash f = 0 || countSlash f = 1)
    if rootFiles.isEmpty then ([.emptyOrNested], [])
    else
      let hasSubfolder := fileList.any (fun f => 0 < countSlash f && !reservedEntry f)
      if hasSubfolder then
        let folders := enum (offendingFolders fileList)
        if folders.isEmpty then ([], [])
        else ([], folders.map Msg.subfolder)
      else ([], [])

/-- The required-file test of `_check_required_files`
(src/sl1s_sanitizer.py:82): some entry contains the required name, ends
with it, and is not under thumbnail/. -/
def requiredFileFound (fileList : List String) (req : String) : Bool :=
  fileList.any (fun f => pyContains f req && pyEndsWith f req && !pyStartsWith f "thumbnail/")

/-- `_check_required_files` (src/sl1s_sanitizer.py:72). -/
def checkRequiredFiles (z : Except ZipErr (List String)) : List Msg :=
  match z with
  | .error e => [.errorCheckingRequired (zipErrStr e)]
  | .ok fileList =>
    ["config.ini", "prusaslicer.ini"].filterMap (fun req =>
      if requiredFileFound fileList req then none else some (.requiredMissing req))

/-- The pattern match applied to one layer-image entry: basename first,
then the naming regex (src/sl1s_sanitizer.py:148-149). -/
def layerMatch (f : String) : Option (String × Nat) := matchLayer (pyBasename f)

/-- The numbers collected from a list of layer-image entries: index of every
entry whose name matches the pattern (used both in `_check_image_files` and
re-computed in `_check_config_consistency`, src/sl1s_sanitizer.py:241-247). -/
def collectNums (imageFiles : List String) : List Nat :=
  imageFiles.filterMap (fun f => (layerMatch f).map Prod.snd)

/-- The layer-image candidates: `[f for f in namelist if _is_layer_image(f)]`
(src/sl1s_sanitizer.py:133). -/
def layerCands (fileList : List String) : List String :=
  fileList.filter (fun f => isLayerImage f)

/-- The per-file naming errors of the classification loop
(src/sl1s_sanitizer.py:146-152). -/
def namingErrsOf (imageFiles : List String) : List Msg :=
  imageFiles.filterMap (fun f =>
    if (layerMatch f).isNone then some (.badNamingPattern f) else none)

/-- The base names collected by the loop, in insertion order — the Python
`base_names` set is their distinct elements (src/sl1s_sanitizer.py:154-157). -/
def basesOf (imageFiles : List String) : List String :=
  imageFiles.filterMap (fun f => (layerMatch f).map Prod.fst)

/-- The multiple-base-names error (src/sl1s_sanitizer.py:160-162); the
message renders the set in iteration order. -/
def baseErrsOf (enum : List String → List String) (imageFiles : List String) : List Msg :=
  if 1 < (basesOf imageFiles).dedup.length
  then [.multipleBaseNames (enum (basesOf imageFiles))] else []

/-- `numbers.sort()` (src/sl1s_sanitizer.py:166). -/
def sortedNums (imageFiles : List String) : List Nat :=
  (collectNums imageFiles).insertionSort (· ≤ ·)

/-- `numbers[0]` after the in-place sort. -/
def startOf (imageFiles : List String) : Nat := (sortedNums imageFiles).headD 0

/-- `list(range(numbers[0], numbers[0] + len(numbers)))`
(src/sl1s_sanitizer.py:167). -/
def expectedOf (imageFiles : List String) : List Nat :=
  List.range' (startOf imageFiles) (collectNums imageFiles).length

/-- `sorted(set(expected_sequence) - set(numbers))`
(src/sl1s_sanitizer.py:170-172): since `expected` is strictly increasing
and duplicate-free, the ascending enumeration of the difference set equals
this filter. -/
def missingOf (imageFiles : List String) : List Nat :=
  (expectedOf imageFiles).filter (fun x => decide (x ∉ collectNums imageFiles))

/-- The missing-numbers error (src/sl1s_sanitizer.py:169-172), guarded by
`if numbers:`. -/
def seqErrsOf (imageFiles : List String) : List Msg :=
  if collectNums imageFiles ≠ [] then
    if sortedNums imageFiles = expectedOf imageFiles then []
    else if (missingOf imageFiles).isEmpty then []
    else [.missingNumbers (missingOf imageFiles)]
  else []

/-- The out-of-range errors (src/sl1s_sanitizer.py:178-181), iterating the
sorted numbers. -/
def rangeErrsOf (imageFiles : List String) : List Msg :=
  if collectNums imageFiles ≠ [] then
    (sortedNums imageFiles).filterMap (fun n =>
      if 99999 < n then some (.outOfRange n) else none)
  else []

/-- The doesn't-start-at-zero warning (src/sl1s_sanitizer.py:174-176). -/
def startWarnsOf (imageFiles : List String) : List Msg :=
  if collectNums imageFiles ≠ [] then
    (if startOf imageFiles ≠ 0 then [.notStartAtZero (fmt05 (startOf imageFiles))] else [])
  else []

/-- `_check_image_files` (src/sl1s_sanitizer.py:128): classify layer images,
check the naming pattern, base-name consistency, numbering contiguity, the
zero start, and the five-digit range.  Returns (errors, warnings,
image_files). -/
def checkImageFiles (enum : List String → List String)
    (z : Except ZipErr (List String)) : List Msg × List Msg × List String :=
  match z with
  | .error e => ([.errorCheckingImages (zipErrStr e)], [], [])
  | .ok fileList =>
    let imageFiles := layerCands fileList
    if imageFiles.isEmpty then ([], [.noLayerImages], imageFiles)
    else
      (namingErrsOf imageFiles ++ baseErrsOf enum imageFiles ++ seqErrsOf imageFiles
        ++ rangeErrsOf imageFiles,
       startWarnsOf imageFiles, imageFiles)

/-! ### The configparser model

`configparser.ConfigParser` as `_extract_config` and `_get_config_value`
use it.  Option names go through `optionxform = str.lower`; section names
are case-sensitive.  The special section name `DEFAULT` routes options to
the separate defaults table and is never listed among the sections. -/

/-- A parse failure of `ConfigParser.read_string`.  The first three abort
reading immediately; `badOptionLine` is `ParsingError`, collected during
the scan and raised after it. -/
inductive IniErr where
  | missingSectionHeader (line : String)
  | duplicateSection (name : String)
  | duplicateOption (sect opt : String)
  | badOptionLine (line : String)
deriving DecidableEq, Repr

/-- `str(e)` of a parse failure (abbreviated message text). -/
def iniErrStr : IniErr → String
  | .missingSectionHeader l => "File contains no section headers. Line: " ++ l
  | .duplicateSection n => "section " ++ n ++ " already exists"
  | .duplicateOption s o => "option " ++ o ++ " in section " ++ s ++ " already exists"
  | .badOptionLine l => "Source contains parsing errors. Line: " ++ l

/-- Association-list lookup by key. -/
def alGet {α : Type} (l : List (String × α)) (k : String) : Option α :=
  (l.find? (fun p => p.1 = k)).map Prod.snd

/-- Association-list key membership. -/
def alHas {α : Type} (l : List (String × α)) (k : String) : Bool :=
  l.any (fun p => p.1 = k)

/-- Append a continuation line to the value list of key `k`. -/
def alAddLine (l : List (String × List String)) (k v : String) :
    List (String × List String) :=
  l.map (fun p => if p.1 = k then (p.1, p.2 ++ [v]) else p)

/-- Parser state during `RawConfigParser._read`: raw values are the line
lists accumulated for each option (joined only at the end of the read). -/
structure IniState where
  defaults : List (String × List String)
  sections : List (String × List (String × List String))
  cursect : Option String
  optname : Option String
  indentLevel : Nat
  firstBad : Option String
deriving Repr

def initIniState : IniState := ⟨[], [], none, none, 0, none⟩

/-- The section-header regex `\[(?P<header>[^]]+)\]` applied with `match`
to the stripped line: a `[`, one or more non-`]` characters, a `]`
(anything may follow). -/
def sectHeader (v : String) : Option String :=
  match v.data with
  | '[' :: rest =>
    let hdr := rest.takeWhile (fun c => c ≠ ']')
    if hdr ≠ [] ∧ (rest.drop hdr.length).head? = some ']' then some ⟨hdr⟩ else none
  | _ => none

/-- The option regex `(?P<option>.*?)\s*(?P<vi>[=:])\s*(?P<value>.*)$`
applied to the stripped line, followed by `optname.rstrip()` and
`optionxform` (lower) on the name and `optval.strip()` on the value. -/
def optLine (v : String) : Option (String × String) :=
  let idx := v.data.findIdx (fun c => c = '=' || c = ':')
  if idx < v.data.length then
    some (pyLower (pyRstrip ⟨v.data.take idx⟩), pyStrip ⟨v.data.drop (idx + 1)⟩)
  else none

/-- Add an option line under the current section, detecting strict-mode
duplicates. -/
def iniAddOption (st : IniState) (sect k v : String) : Except IniErr IniState :=
  if sect = "DEFAULT" then
    if alHas st.defaults k then .error (.duplicateOption sect k)
    else .ok { st with defaults := st.defaults ++ [(k, [v])], optname := some k }
  else
    let dict := (alGet st.sections sect).getD []
    if alHas dict k then .error (.duplicateOption sect k)
    else .ok { st with
      sections := st.sections.map (fun p => if p.1 = sect then (p.1, p.2 ++ [(k, [v])]) else p),
      optname := some k }

/-- Append a continuation (or blank) line to the currently open option. -/
def iniAddCont (st : IniState) (sect o v : String) : IniState :=
  if sect = "DEFAULT" then { st with defaults := alAddLine st.defaults o v }
  else { st with
    sections := st.sections.map (fun p => if p.1 = sect then (p.1, alAddLine p.2 o v) else p) }

/-- One line of `RawConfigParser._read` (CPython): full-line comments,
blank lines (appended into an open multiline value), continuation lines
(more indented than the last option/section line), section headers with
strict duplicate detection, option lines, and the two immediate errors. -/
def iniStep (st : IniState) (line : String) : Except IniErr IniState :=
  let stripped := pyStrip line
  if pyStartsWith stripped "#" || pyStartsWith stripped ";" then .ok st
  else if stripped = "" then
    match st.cursect, st.optname with
    | some sect, some o => if o ≠ "" then .ok (iniAddCont st sect o "") else .ok st
    | _, _ => .ok st
  else
    let cur := (line.data.takeWhile Char.isWhitespace).length
    match st.cursect, st.optname with
    | some sect, some o =>
      if o ≠ "" ∧ st.indentLevel < cur then .ok (iniAddCont st sect o stripped)
      else iniStepLine { st with indentLevel := cur } stripped
    | _, _ => iniStepLine { st with indentLevel := cur } stripped
where
  /-- The non-continuation case: section header, then option line.  An
  option line with an empty name accumulates a `ParsingError` but is still
  stored (CPython keeps going after `_handle_error`). -/
  iniStepLine (st : IniState) (stripped : String) : Except IniErr IniState :=
    match sectHeader stripped with
    | some name =>
      if name = "DEFAULT" then .ok { st with cursect := some "DEFAULT", optname := none }
      else if alHas st.sections name then .error (.duplicateSection name)
      else .ok { st with sections := st.sections ++ [(name, [])],
                         cursect := some name, optname := none }
    | none =>
      match st.cursect with
      | none => .error (.missingSectionHeader stripped)
      | some sect =>
        match optLine stripped with
        | some (k, v) =>
          if k = "" then
            iniAddOption { st with firstBad := st.firstBad.orElse (fun _ => some stripped) }
              sect k v
          else iniAddOption st sect k v
        | none =>
          .ok { st with firstBad := st.firstBad.orElse (fun _ => some stripped) }

/-- Run `_read` over all lines; a hard error stops the scan and is
returned with the state reached so far. -/
def iniRead : List String → IniState → IniState × Option IniErr
  | [], st =>
    match st.firstBad with
    | some l => (st, some (.badOptionLine l))
    | none => (st, none)
  | line :: rest, st =>
    match iniStep st line with
    | .ok st' => iniRead rest st'
    | .error e => (st, some e)

/-- What `ConfigParser` holds after `read_string`.  In CPython 3.11
`_join_multiline_values` runs after the reading loop, so when the read was
stopped by an immediate error (missing section header, duplicate section
or option) the stored values are still the raw line lists and any value
access raises; `joined` records whether the join ran.  (On a joined parser
the values below are the joined strings; on an unjoined one they are
placeholders that `proxyGet` refuses to read.) -/
structure PyConfigParser where
  defaults : List (String × String)
  sections : List (String × List (String × String))
  joined : Bool
deriving DecidableEq, Repr

/-- `_join_multiline_values`: `'\n'.join(lines).rstrip()`. -/
def joinVal (vs : List String) : String := pyRstrip (String.intercalate "\n" vs)

def joinState (st : IniState) (joined : Bool) : PyConfigParser :=
  ⟨st.defaults.map (fun p => (p.1, joinVal p.2)),
   st.sections.map (fun s => (s.1, s.2.map (fun p => (p.1, joinVal p.2)))),
   joined⟩

/-- `ConfigParser.read_string` on a line list: the parser contents after
the read (partial on failure) and the failure, if any.  `ParsingError` is
raised after the join, the other errors before it. -/
def readString (lines : List String) : PyConfigParser × Option IniErr :=
  let (st, e) := iniRead lines initIniState
  let joined := match e with
    | none => true
    | some (.badOptionLine _) => true
    | some _ => false
  (joinState st joined, e)

/-- `has_section`: the DEFAULT section is never acknowledged (it is not
stored in the section table). -/
def hasSection (p : PyConfigParser) (s : String) : Bool := alHas p.sections s

/-- `key in parser[section]` (SectionProxy membership = `has_option`):
the key, lowercased, is in the section's table or among the defaults. -/
def proxyHasKey (p : PyConfigParser) (s k : String) : Bool :=
  alHas ((alGet p.sections s).getD []) (pyLower k) || alHas p.defaults (pyLower k)

/-- `BasicInterpolation.before_get`, modelled only for '%'-free values:
a value containing '%' is treated as an interpolation failure. -/
def interpolate (v : String) : Except String String :=
  if v.data.contains '%' then .error ("interpolation in value " ++ v) else .ok v

/-- `parser[section][key]`: raw lookup (section table, then defaults)
followed by interpolation.  On an unjoined parser the stored value is a
raw line list and interpolation raises `AttributeError`. -/
def proxyGet (p : PyConfigParser) (s k : String) : Except String (Option String) :=
  match (alGet ((alGet p.sections s).getD []) (pyLower k)).orElse
      (fun _ => alGet p.defaults (pyLower k)) with
  | none => .ok none
  | some v =>
    if p.joined then (interpolate v).map some
    else .error "AttributeError: list object has no attribute find"

/-- `_get_config_value` (src/sl1s_sanitizer.py:186): the three lookup
tiers — the named section, then a section literally named DEFAULT, then
the first section containing the key — with `None` when absent.  A Python
exception raised during the lookup is the `.error` case. -/
def getConfigValue (cfg : Option PyConfigParser) (sect key : String) :
    Except String (Option String) :=
  match cfg with
  | none => .ok none
  | some p =>
    if hasSection p sect && proxyHasKey p sect key then proxyGet p sect key
    else if hasSection p "DEFAULT" && proxyHasKey p "DEFAULT" key then proxyGet p "DEFAULT" key
    else
      match p.sections.find? (fun sp => proxyHasKey p sp.1 key) with
      | some sp => proxyGet p sp.1 key
      | none => .ok none

/-- `_extract_config` (src/sl1s_sanitizer.py:88): find config.ini, parse
it as INI, and on `MissingSectionHeaderError` retry with a synthesized
`[DEFAULT]` wrapper line.  `self.config` is assigned the parser object
before the parse runs, so after a failed parse it holds the partially
populated parser, not `None`. -/
def extractConfig (a : Archive) : List Msg × Option PyConfigParser :=
  match a.zipOpen with
  | .error e => ([.errorReadingConfig (zipErrStr e)], none)
  | .ok fileList =>
    match fileList.filter (fun f => pyEndsWith f "config.ini" && !pyStartsWith f "thumbnail/") with
    | [] => ([.configNotFound], none)
    | cf :: _ =>
      let lines := a.content cf
      let (p1, e1) := readString lines
      match e1 with
      | none => ([], some p1)
      | some (.missingSectionHeader _) =>
        let (p2, e2) := readString ("[DEFAULT]" :: lines)
        match e2 with
        | none => ([], some p2)
        | some err => ([.errorReadingConfig (iniErrStr err)], some p2)
      | some err => ([.errorReadingConfig (iniErrStr err)], some p1)

/-- Python `int(s)`: optional surrounding whitespace, optional sign, then
decimal digits with single underscores allowed strictly between digits. -/
def pythonInt (s : String) : Option Int :=
  let t := (pyStrip s).data
  let signAndDigits : Int × List Char :=
    match t with
    | '-' :: r => (-1, r)
    | '+' :: r => (1, r)
    | r => (1, r)
  let sign := signAndDigits.1
  let ds := signAndDigits.2
  if ds ≠ [] ∧ ds.head? ≠ some '_' ∧ ds.getLast? ≠ some '_'
      ∧ (ds.zip ds.tail).all (fun p => !(p.1 = '_' && p.2 = '_'))
      ∧ ds.all (fun c => isDigitCh c || c = '_') then
    some (sign * (digitsVal (ds.filter isDigitCh) : Int))
  else none

/-- `.rstrip('_').rstrip('-')` as the source composes it
(src/sl1s_sanitizer.py:223-224): first all trailing underscores, then all
trailing hyphens. -/
def codeStrip (s : String) : String := rstripChar '-' (rstripChar '_' s)

/-- Modelled from the spec: "strip trailing `_` and `-` characters" read
as removing every trailing character that is an underscore or a hyphen.
Present only to compare the spec's wording against `codeStrip`. -/
def specStrip (s : String) : String :=
  ⟨(s.data.reverse.dropWhile (fun c => c = '_' || c = '-')).reverse⟩

/-- Python `max` on a list of naturals (callers guard non-emptiness). -/
def pyMax (l : List Nat) : Nat := l.foldl Nat.max 0

/-- The jobDir consistency check (src/sl1s_sanitizer.py:212-227). -/
def jobDirErrs (jd : Option String) (imageFiles : List String) : List Msg :=
  match jd with
  | some j =>
    if j ≠ "" then
      match imageFiles with
      | [] => []
      | first :: _ =>
        match layerMatch first with
        | some (b, _) =>
          if codeStrip b ≠ codeStrip j then [.jobDirMismatch (codeStrip b) (codeStrip j)]
          else []
        | none => []
    else []
  | none => []

/-- The numFast consistency checks (src/sl1s_sanitizer.py:229-255): the
count comparison against all recognized layer images, and the independent
maximum-index comparison against `numFast - 1`. -/
def numFastErrs (nf : Option String) (imageFiles : List String) : List Msg :=
  match nf with
  | some v =>
    if v ≠ "" then
      match pythonInt v with
      | none => [.numFastNotInt]
      | some n =>
        let countErrs : List Msg :=
          if n ≠ (imageFiles.length : Int) then [.numFastCountMismatch n imageFiles.length]
          else []
        let nums := collectNums imageFiles
        let maxErrs : List Msg :=
          if nums ≠ [] then
            (if (pyMax nums : Int) ≠ n - 1 then [.lastNumberMismatch (pyMax nums) (n - 1)]
             else [])
          else []
        countErrs ++ maxErrs
    else []
  | none => []

/-- `_check_config_consistency` (src/sl1s_sanitizer.py:206): runs only when
`self.config` is not `None`; a lookup exception aborts the rest of the
stage but keeps the errors already appended. -/
def checkConfigConsistency (cfg : Option PyConfigParser) (imageFiles : List String) :
    List Msg :=
  match cfg with
  | none => []
  | some _ =>
    match getConfigValue cfg "layerRenderParams" "jobDir" with
    | .error e => [.errorCheckingConsistency e]
    | .ok jd =>
      match getConfigValue cfg "layerRenderParams" "numFast" with
      | .error e => jobDirErrs jd imageFiles ++ [.errorCheckingConsistency e]
      | .ok nf => jobDirErrs jd imageFiles ++ numFastErrs nf imageFiles

/-- `validate_sl1s_file` (src/sl1s_sanitizer.py:22): the existence check
short-circuits; every later stage runs unconditionally and appends its
own messages. -/
def validate (enum : List String → List String) (a : Archive) : List Msg × List Msg :=
  if a.pathExists then
    let r2 := checkZipStructure enum a.zipOpen
    let e3 := checkRequiredFiles a.zipOpen
    let r4 := extractConfig a
    let r5 := checkImageFiles enum a.zipOpen
    let e6 := checkConfigConsistency r4.2 r5.2.2
    (r2.1 ++ e3 ++ r4.1 ++ r5.1 ++ e6, r2.2 ++ r5.2.1)
  else ([.fileNotFound a.path], [])

/-- Recognizer for the missing-numbers error. -/
def Msg.isMissingNumbers : Msg → Bool
  | .missingNumbers _ => true
  | _ => false

/-- Equality of messages up to the rendering order of the base-name set
inside the multiple-base-names error (the one message whose text embeds a
Python set). -/
def MsgEquiv : Msg → Msg → Prop
  | .multipleBaseNames l, .multipleBaseNames l' => l.Perm l'
  | m, m' => m = m'

/-- Concrete archive with a bare key=value config (no section headers). -/
def archBare : Archive :=
  ⟨"t.sl1s", true, .ok ["config.ini", "prusaslicer.ini"], fun _ => ["jobDir = foo"]⟩

/-- The same config written in the sectioned format. -/
def archSect : Archive :=
  ⟨"t.sl1s", true, .ok ["config.ini", "prusaslicer.ini"],
   fun _ => ["[layerRenderParams]", "jobDir = foo"]⟩

/-- Archive whose config fails the sectioned parse with a missing section
header and the wrapped retry with a duplicate option. -/
def archDoubleFail : Archive :=
  ⟨"t.sl1s", true, .ok ["config.ini", "prusaslicer.ini"],
   fun _ => ["numFast = banana", "[layerRenderParams]", "numFast = x", "numFast = y"]⟩

/-- Parser of a config that sets numFast = 7 only. -/
def cfgNumFast7 : PyConfigParser := (readString ["[layerRenderParams]", "numFast = 7"]).1

/-- Parser of a config that sets jobDir only, to a value with a trailing
underscore-then-hyphen run. -/
def cfgJobDirTail : PyConfigParser := (readString ["[layerRenderParams]", "jobDir = a_-"]).1

/-! ### Shared lemmas -/

theorem MsgEquiv.rfl : ∀ m : Msg, MsgEquiv m m := by
  intro m
  cases m <;> simp [MsgEquiv]

theorem forallTwo_msgEquiv_refl (l : List Msg) : List.Forall₂ MsgEquiv l l := by
  induction l with
  | nil => exact List.Forall₂.nil
  | cons a t ih => exact List.Forall₂.cons (MsgEquiv.rfl a) ih

theorem forallTwo_msgEquiv_of_eq {l l' : List Msg} (h : l = l') :
    List.Forall₂ MsgEquiv l l' := h ▸ forallTwo_msgEquiv_refl l

theorem validEnum_dedup : ValidEnum List.dedup := by
  intro l
  exact ⟨l.nodup_dedup, fun x => List.mem_dedup⟩

theorem validEnum_dedup_reverse : ValidEnum (fun l => l.dedup.reverse) := by
  intro l
  refine ⟨List.nodup_reverse.mpr l.nodup_dedup, fun x => ?_⟩
  rw [List.mem_reverse]
  exact List.mem_dedup

theorem validEnum_perm {e₁ e₂ : List String → List String} (h₁ : ValidEnum e₁)
    (h₂ : ValidEnum e₂) (l : List String) : (e₁ l).Perm (e₂ l) := by
  rcases h₁ l with ⟨n₁, m₁⟩
  rcases h₂ l with ⟨n₂, m₂⟩
  rw [List.perm_ext_iff_of_nodup n₁ n₂]
  intro x
  rw [m₁ x, m₂ x]

/-! ### C1 -/

/-- C1 (corrected): a missing input path yields exactly one fatal error and
no further checks run; but an existing file that is not a valid ZIP archive
yields one error from each of the four archive-opening stages (structure,
required files, config extraction, image checks) — four errors, not one —
and only the consistency stage stays silent. -/
theorem missing_or_invalid_archive (enum : List String → List String) (a : Archive) :
    (a.pathExists = false → validate enum a = ([.fileNotFound a.path], [])) ∧
    (a.pathExists = true → a.zipOpen = .error .badZip →
      validate enum a =
        ([.notValidZip, .errorCheckingRequired (zipErrStr .badZip),
          .errorReadingConfig (zipErrStr .badZip), .errorCheckingImages (zipErrStr .badZip)],
         [])) := by
  obtain ⟨p, pe, z, c⟩ := a
  constructor
  · intro h
    simp only at h
    subst h
    rfl
  · intro h hz
    simp only at h hz
    subst h
    subst hz
    rfl

/-- C1 witness: both hypotheses discharged at concrete archives. -/
theorem missing_or_invalid_archive_witness :
    validate List.dedup ⟨"missing.sl1s", false, .error .badZip, fun _ => []⟩ =
      ([.fileNotFound "missing.sl1s"], []) ∧
    validate List.dedup ⟨"bad.sl1s", true, .error .badZip, fun _ => []⟩ =
      ([.notValidZip, .errorCheckingRequired (zipErrStr .badZip),
        .errorReadingConfig (zipErrStr .badZip), .errorCheckingImages (zipErrStr .badZip)],
       []) :=
  ⟨(missing_or_invalid_archive List.dedup _).1 rfl,
   (missing_or_invalid_archive List.dedup _).2 rfl rfl⟩

/-- C1 counterexample: an existing file that is not a valid archive makes
validation emit four errors, with the later stages' messages present — not
exactly one fatal error with no further checks. -/
theorem invalid_archive_not_single_error :
    (validate List.dedup ⟨"bad.sl1s", true, .error .badZip, fun _ => []⟩).1.length = 4 ∧
    Msg.errorCheckingImages (zipErrStr .badZip) ∈
      (validate List.dedup ⟨"bad.sl1s", true, .error .badZip, fun _ => []⟩).1 := by
  decide

/-! ### C2 -/

/-- C2 (code_bug): a key present only in a bare key=value config (wrapped
into the synthetic DEFAULT section on the retry) is not found by any of the
three lookup tiers — `has_section('DEFAULT')` is always false in
configparser — so the bare-format config and the equivalent sectioned
config give different lookup results, and the bare-format key is signalled
as not found. -/
theorem default_tier_unreachable :
    (extractConfig archBare).1 = [] ∧
    (extractConfig archBare).2 =
      some ⟨[("jobdir", "foo")], [], true⟩ ∧
    getConfigValue (extractConfig archBare).2 "layerRenderParams" "jobDir" = .ok none ∧
    getConfigValue (extractConfig archSect).2 "layerRenderParams" "jobDir" =
      .ok (some "foo") := by
  decide

/-! ### C3 -/

/-- C3 counterexample: an archive whose only entry is under the reserved
thumbnail/ folder contains no entry outside the two reserved prefixes, yet
the structure check emits no fatal error at all (the entry counts as a
root file because it has exactly one slash). -/
theorem reserved_only_archive_no_fatal :
    (∀ f ∈ ["thumbnail/t.png"], reservedEntry f = true) ∧
    checkZipStructure List.dedup (.ok ["thumbnail/t.png"]) = ([], []) := by
  decide

/-- C3 (corrected): the fatal "empty or deeply nested" error is emitted
exactly when every entry name contains at least two path separators (and
it is then the only message); otherwise the errors are empty and the
warnings are one per distinct top-level folder of the non-reserved nested
entries. -/
theorem empty_nested_and_subfolder_warnings (enum : List String → List String)
    (entries : List String) (hval : ValidEnum enum) :
    (Msg.emptyOrNested ∈ (checkZipStructure enum (.ok entries)).1 ↔
      ∀ f ∈ entries, 2 ≤ countSlash f) ∧
    ((∀ f ∈ entries, 2 ≤ countSlash f) →
      checkZipStructure enum (.ok entries) = ([.emptyOrNested], [])) ∧
    ((∃ f ∈ entries, countSlash f ≤ 1) → (checkZipStructure enum (.ok entries)).1 = []) ∧
    (checkZipStructure enum (.ok entries)).2.Nodup ∧
    (∀ g, Msg.subfolder g ∈ (checkZipStructure enum (.ok entries)).2 ↔
      ((∃ f ∈ entries, countSlash f ≤ 1) ∧ g ∈ offendingFolders entries)) := by
  by_cases hroot : (entries.filter (fun f => countSlash f = 0 || countSlash f = 1)).isEmpty = true
  · have hall : ∀ f ∈ entries, 2 ≤ countSlash f := by
      rw [List.isEmpty_eq_true, List.filter_eq_nil_iff] at hroot
      intro f hf
      have := hroot f hf
      simp only [Bool.or_eq_true, decide_eq_true_eq] at this
      omega
    have hres : checkZipStructure enum (.ok entries) = ([.emptyOrNested], []) := by
      simp only [checkZipStructure, hroot, if_true]
    refine ⟨?_, fun _ => hres, ?_, ?_, ?_⟩
    · rw [hres]
      exact iff_of_true (List.mem_singleton.mpr rfl) hall
    · rintro ⟨f, hf, hle⟩
      have := hall f hf
      omega
    · rw [hres]; exact List.nodup_nil
    · intro g
      rw [hres]
      simp only [List.not_mem_nil, false_iff, not_and]
      rintro ⟨f, hf, hle⟩
      have := hall f hf
      omega
  · have hex : ∃ f ∈ entries, countSlash f ≤ 1 := by
      rw [List.isEmpty_eq_true, List.filter_eq_nil_iff] at hroot
      push_neg at hroot
      obtain ⟨f, hf, hp⟩ := hroot
      refine ⟨f, hf, ?_⟩
      simp only [Bool.or_eq_true, decide_eq_true_eq] at hp
      omega
    have hnall : ¬∀ f ∈ entries, 2 ≤ countSlash f := by
      obtain ⟨f, hf, hle⟩ := hex
      intro h
      have := h f hf
      omega
    by_cases hsub : (entries.any (fun f => 0 < countSlash f && !reservedEntry f)) = true
    · have hoff : offendingFolders entries ≠ [] := by
        rw [List.any_eq_true] at hsub
        obtain ⟨f, hf, hp⟩ := hsub
        intro hnil
        rw [offendingFolders, List.map_eq_nil_iff, List.filter_eq_nil_iff] at hnil
        exact hnil f hf hp
      have henum : ¬(enum (offendingFolders entries)).isEmpty = true := by
        rw [List.isEmpty_eq_true]
        intro hnil
        obtain ⟨x, hx⟩ := List.exists_mem_of_ne_nil _ hoff
        have := ((hval (offendingFolders entries)).2 x).mpr hx
        rw [hnil] at this
        exact List.not_mem_nil x this
      have hres : checkZipStructure enum (.ok entries) =
          ([], (enum (offendingFolders entries)).map Msg.subfolder) := by
        simp only [checkZipStructure]
        rw [if_neg hroot, if_pos hsub, if_neg henum]
      refine ⟨?_, fun h => absurd h hnall, fun _ => by rw [hres], ?_, ?_⟩
      · rw [hres]
        exact iff_of_false (List.not_mem_nil _) hnall
      · rw [hres]
        refine List.Nodup.map (fun a b hab => ?_) (hval _).1
        exact Msg.subfolder.inj hab
      · intro g
        rw [hres]
        simp only [List.mem_map]
        constructor
        · rintro ⟨x, hx, hxg⟩
          have := Msg.subfolder.inj hxg
          subst this
          exact ⟨hex, ((hval _).2 x).mp hx⟩
        · rintro ⟨-, hg⟩
          exact ⟨g, ((hval _).2 g).mpr hg, rfl⟩
    · have hoff : offendingFolders entries = [] := by
        rw [offendingFolders, List.map_eq_nil_iff, List.filter_eq_nil_iff]
        intro f hf hp
        rw [List.any_eq_true] at hsub
        exact hsub ⟨f, hf, hp⟩
      have hres : checkZipStructure enum (.ok entries) = ([], []) := by
        simp only [checkZipStructure]
        rw [if_neg hroot, if_neg hsub]
      refine ⟨?_, fun h => absurd h hnall, fun _ => by rw [hres], ?_, ?_⟩
      · rw [hres]
        exact iff_of_false (List.not_mem_nil _) hnall
      · rw [hres]; exact List.nodup_nil
      · intro g
        rw [hres, hoff]
        simp

/-- C3 witness: the amended characterization applied to a concrete archive
with two distinct offending folders and a root file. -/
theorem empty_nested_and_subfolder_warnings_witness :
    Msg.subfolder "a" ∈
      (checkZipStructure List.dedup (.ok ["a/x.png", "b/y.png", "c.txt"])).2 ∧
    Msg.emptyOrNested ∉ (checkZipStructure List.dedup (.ok ["a/x.png", "b/y.png", "c.txt"])).1 := by
  have h := empty_nested_and_subfolder_warnings List.dedup ["a/x.png", "b/y.png", "c.txt"]
    validEnum_dedup
  constructor
  · exact (h.2.2.2.2 "a").mpr (by decide)
  · intro hmem
    have := h.1.mp hmem
    have := this "c.txt" (by decide)
    revert this
    decide

/-! ### C4 -/

/-- C4 (code_bug): when the sectioned parse fails with a missing section
header and the wrapped retry fails for another reason (a duplicate
option), `self.config` already holds the partially populated parser — it
was assigned before `read_string` ran — so the cross-consistency stage is
not skipped: it runs, finds the partially stored numFast value, and
appends its own error on top of the single config-read error. -/
theorem double_parse_failure_not_skipped :
    validate List.dedup archDoubleFail =
      ([.errorReadingConfig (iniErrStr (.duplicateOption "layerRenderParams" "numfast")),
        .errorCheckingConsistency "AttributeError: list object has no attribute find"],
       [.noLayerImages]) ∧
    checkConfigConsistency (extractConfig archDoubleFail).2 [] ≠ [] := by
  decide

/-! ### C6, C7: the consistency stage -/

theorem mem_ite_singleton {c : Prop} [Decidable c] {m a : Msg}
    (h : m ∈ (if c then [a] else [])) : m = a := by
  split at h
  · exact List.mem_singleton.mp h
  · exact absurd h (List.not_mem_nil m)

theorem mem_ite_ite_singleton {c d : Prop} [Decidable c] [Decidable d] {m a : Msg}
    (h : m ∈ (if c then (if d then [a] else []) else [])) : m = a := by
  split at h
  · exact mem_ite_singleton h
  · exact absurd h (List.not_mem_nil m)

theorem mem_jobDirErrs {jd : Option String} {imgs : List String} {m : Msg}
    (hm : m ∈ jobDirErrs jd imgs) : ∃ x y, m = .jobDirMismatch x y := by
  rcases jd with _ | j
  · simp [jobDirErrs] at hm
  · rcases imgs with _ | ⟨first, rest⟩
    · simp only [jobDirErrs] at hm
      split at hm <;> exact absurd hm (List.not_mem_nil m)
    · simp only [jobDirErrs] at hm
      split at hm
      · rcases hml : layerMatch first with _ | ⟨b, i⟩ <;> simp only [hml] at hm
        · exact absurd hm (List.not_mem_nil m)
        · split at hm
          · exact ⟨_, _, List.mem_singleton.mp hm⟩
          · exact absurd hm (List.not_mem_nil m)
      · exact absurd hm (List.not_mem_nil m)

/-- C7 counterexample: with jobDir = "a_-" and the single image
"a00000.png", the code's `.rstrip('_').rstrip('-')` leaves "a_", so the
mismatch error fires even though removing every trailing '_' or '-'
character (the claim's stripping) makes the two values equal. -/
theorem jobdir_strip_order_counterexample :
    Msg.jobDirMismatch "a" "a_" ∈ checkConfigConsistency (some cfgJobDirTail) ["a00000.png"] ∧
    specStrip "a_-" = specStrip "a" := by
  decide

/-- C7 (corrected): when jobDir is present with a non-empty value and at
least one layer image exists whose basename (taken from the first image in
original archive order) matches the naming pattern with base b, the check
strips trailing underscores and then trailing hyphens — in that order, so
an underscore before a final hyphen survives — from both b and the config
value, and emits the fatal error naming both stripped values exactly when
they differ. -/
theorem jobdir_check (p : PyConfigParser) (first : String) (rest : List String)
    (j b : String) (i : Nat)
    (hj : getConfigValue (some p) "layerRenderParams" "jobDir" = .ok (some j))
    (hne : j ≠ "")
    (hm : layerMatch first = some (b, i)) :
    Msg.jobDirMismatch (codeStrip b) (codeStrip j) ∈
        checkConfigConsistency (some p) (first :: rest) ↔
      codeStrip b ≠ codeStrip j := by
  have hjob : jobDirErrs (some j) (first :: rest) =
      if codeStrip b ≠ codeStrip j then [.jobDirMismatch (codeStrip b) (codeStrip j)] else [] := by
    simp only [jobDirErrs, hm]
    rw [if_pos hne]
  have hshape : ∀ X : List Msg, (∀ m ∈ X, ∀ x y, m ≠ Msg.jobDirMismatch x y) →
      (Msg.jobDirMismatch (codeStrip b) (codeStrip j) ∈
        jobDirErrs (some j) (first :: rest) ++ X ↔ codeStrip b ≠ codeStrip j) := by
    intro X hX
    rw [List.mem_append, hjob]
    by_cases hd : codeStrip b ≠ codeStrip j
    · rw [if_pos hd]
      exact iff_of_true (Or.inl (List.mem_singleton.mpr rfl)) hd
    · rw [if_neg hd]
      refine iff_of_false ?_ hd
      rintro (hmem | hmem)
      · exact List.not_mem_nil _ hmem
      · exact hX _ hmem _ _ rfl
  simp only [checkConfigConsistency, hj]
  rcases hnf : getConfigValue (some p) "layerRenderParams" "numFast" with e | nf
  · refine hshape [.errorCheckingConsistency e] ?_
    intro m hm' x y hEq
    rw [List.mem_singleton.mp hm'] at hEq
    cases hEq
  · refine hshape (numFastErrs nf (first :: rest)) ?_
    rcases nf with _ | v
    · intro m hm' x y hEq
      exact absurd hm' (List.not_mem_nil m)
    · intro m hm' x y hEq
      subst hEq
      simp only [numFastErrs] at hm'
      split at hm'
      · rcases hint : pythonInt v with _ | n <;> simp only [hint] at hm'
        · cases List.mem_singleton.mp hm'
        · rcases List.mem_append.mp hm' with h | h
          · cases mem_ite_singleton h
          · cases mem_ite_ite_singleton h
      · exact absurd hm' (List.not_mem_nil _)

/-- C7 witness: the amended check applied at jobDir = "foo_" against
images bar00000.png, bar00001.png (the spec's own example): the error
fires with the stripped values "bar" and "foo". -/
theorem jobdir_check_witness :
    Msg.jobDirMismatch "bar" "foo" ∈
      checkConfigConsistency (some (readString ["[layerRenderParams]", "jobDir = foo_"]).1)
        ["bar00000.png", "bar00001.png"] := by
  have h := jobdir_check (readString ["[layerRenderParams]", "jobDir = foo_"]).1
    "bar00000.png" ["bar00001.png"] "foo_" "bar" 0 (by decide) (by decide) (by decide)
  exact h.mpr (by decide)

/-- C6 (confirmed): when numFast is present with a non-empty value — and
the jobDir lookup does not raise — a non-integer value yields the fatal
not-an-integer error (and neither numeric check fires); an integer value n
yields the count-mismatch error exactly when n differs from the number of
recognized layer images (pattern matches and non-matches alike), and,
independently, when any indices were parsed, the max-index error exactly
when their maximum differs from n - 1. -/
theorem numfast_checks (p : PyConfigParser) (imgs : List String) (jd : Option String)
    (v : String)
    (hjd : getConfigValue (some p) "layerRenderParams" "jobDir" = .ok jd)
    (hnf : getConfigValue (some p) "layerRenderParams" "numFast" = .ok (some v))
    (hne : v ≠ "") :
    (pythonInt v = none →
      Msg.numFastNotInt ∈ checkConfigConsistency (some p) imgs ∧
      (∀ n c, Msg.numFastCountMismatch n c ∉ checkConfigConsistency (some p) imgs) ∧
      (∀ a b, Msg.lastNumberMismatch a b ∉ checkConfigConsistency (some p) imgs)) ∧
    (∀ n : Int, pythonInt v = some n →
      Msg.numFastNotInt ∉ checkConfigConsistency (some p) imgs ∧
      (Msg.numFastCountMismatch n imgs.length ∈ checkConfigConsistency (some p) imgs ↔
        n ≠ (imgs.length : Int)) ∧
      (collectNums imgs ≠ [] →
        (Msg.lastNumberMismatch (pyMax (collectNums imgs)) (n - 1) ∈
            checkConfigConsistency (some p) imgs ↔
          (pyMax (collectNums imgs) : Int) ≠ n - 1))) := by
  have hout : checkConfigConsistency (some p) imgs =
      jobDirErrs jd imgs ++ numFastErrs (some v) imgs := by
    simp only [checkConfigConsistency, hjd, hnf]
  have hjobnot : ∀ {m : Msg}, (∀ x y, m ≠ Msg.jobDirMismatch x y) → m ∉ jobDirErrs jd imgs := by
    intro m hm hmem
    obtain ⟨x, y, rfl⟩ := mem_jobDirErrs hmem
    exact hm x y rfl
  constructor
  · intro hint
    have hnum : numFastErrs (some v) imgs = [.numFastNotInt] := by
      simp only [numFastErrs]
      rw [if_pos hne, hint]
    rw [hout, hnum]
    refine ⟨List.mem_append_right _ (List.mem_singleton.mpr rfl), ?_, ?_⟩
    · intro n c hmem
      rcases List.mem_append.mp hmem with h | h
      · exact hjobnot (fun x y h' => by cases h') h
      · cases List.mem_singleton.mp h
    · intro a b hmem
      rcases List.mem_append.mp hmem with h | h
      · exact hjobnot (fun x y h' => by cases h') h
      · cases List.mem_singleton.mp h
  · intro n hint
    have hnum : numFastErrs (some v) imgs =
        (if n ≠ (imgs.length : Int) then [.numFastCountMismatch n imgs.length] else []) ++
        (if collectNums imgs ≠ [] then
          (if (pyMax (collectNums imgs) : Int) ≠ n - 1
           then [.lastNumberMismatch (pyMax (collectNums imgs)) (n - 1)] else [])
         else []) := by
      simp only [numFastErrs]
      rw [if_pos hne, hint]
    rw [hout, hnum]
    refine ⟨?_, ?_, ?_⟩
    · intro hmem
      rcases List.mem_append.mp hmem with h | h
      · exact hjobnot (fun x y h' => by cases h') h
      · rcases List.mem_append.mp h with h' | h'
        · cases mem_ite_singleton h'
        · cases mem_ite_ite_singleton h'
    · constructor
      · intro hmem
        by_contra hEq
        rcases List.mem_append.mp hmem with h | h
        · exact hjobnot (fun x y h' => by cases h') h
        · rcases List.mem_append.mp h with h' | h'
          · rw [if_neg (fun hc => hc hEq)] at h'
            exact List.not_mem_nil _ h'
          · cases mem_ite_ite_singleton h'
      · intro hne'
        refine List.mem_append_right _ (List.mem_append_left _ ?_)
        rw [if_pos hne']
        exact List.mem_singleton.mpr rfl
    · intro hnums
      constructor
      · intro hmem
        by_contra hEq
        rcases List.mem_append.mp hmem with h | h
        · exact hjobnot (fun x y h' => by cases h') h
        · rcases List.mem_append.mp h with h' | h'
          · cases mem_ite_singleton h'
          · rw [if_pos hnums, if_neg (fun hc => hc hEq)] at h'
            exact List.not_mem_nil _ h'
      · intro hne'
        refine List.mem_append_right _ (List.mem_append_right _ ?_)
        rw [if_pos hnums, if_pos hne']
        exact List.mem_singleton.mpr rfl

/-! ### C5, C8: the numbering checks -/

theorem sortedNums_perm (imageFiles : List String) :
    (sortedNums imageFiles).Perm (collectNums imageFiles) :=
  List.perm_insertionSort _ _

theorem sortedNums_sorted (imageFiles : List String) :
    (sortedNums imageFiles).Sorted (· ≤ ·) :=
  List.sorted_insertionSort _ _

theorem expectedOf_sorted_le (imageFiles : List String) :
    (expectedOf imageFiles).Sorted (· ≤ ·) :=
  List.pairwise_le_range' _ _

/-- When the sorted numbers differ from the expected contiguous run, the
missing list cannot be empty: the run has as many distinct values as there
are numbers, so containing all of them would force equality. -/
theorem missingOf_ne_nil {imageFiles : List String}
    (hdiff : sortedNums imageFiles ≠ expectedOf imageFiles) :
    missingOf imageFiles ≠ [] := by
  intro hnil
  rw [missingOf, List.filter_eq_nil_iff] at hnil
  have hsub : expectedOf imageFiles ⊆ collectNums imageFiles := by
    intro a ha
    have := hnil a ha
    simpa using this
  have hnodup : (expectedOf imageFiles).Nodup := List.nodup_range' _ _
  have hlen : (collectNums imageFiles).length ≤ (expectedOf imageFiles).length := by
    rw [expectedOf, List.length_range']
  have hperm := (List.subperm_of_subset hnodup hsub).perm_of_length_le hlen
  exact hdiff (List.eq_of_perm_of_sorted ((sortedNums_perm _).trans hperm.symm)
    (sortedNums_sorted _) (expectedOf_sorted_le _))

theorem mem_namingErrsOf {l : List String} {m : Msg} (h : m ∈ namingErrsOf l) :
    ∃ f, m = .badNamingPattern f := by
  rw [namingErrsOf, List.mem_filterMap] at h
  obtain ⟨f, _, hf⟩ := h
  split at hf
  · exact ⟨f, (Option.some.inj hf).symm⟩
  · cases hf

theorem mem_baseErrsOf {enum : List String → List String} {l : List String} {m : Msg}
    (h : m ∈ baseErrsOf enum l) : ∃ names, m = .multipleBaseNames names := by
  rw [baseErrsOf] at h
  exact ⟨_, mem_ite_singleton h⟩

theorem mem_rangeErrsOf {l : List String} {m : Msg} (h : m ∈ rangeErrsOf l) :
    ∃ n, m = .outOfRange n := by
  rw [rangeErrsOf] at h
  split at h
  · rw [List.mem_filterMap] at h
    obtain ⟨n, _, hn⟩ := h
    split at hn
    · exact ⟨n, (Option.some.inj hn).symm⟩
    · cases hn
  · exact absurd h (List.not_mem_nil m)

/-- The error list of the image stage when candidates exist. -/
theorem checkImageFiles_errs (enum : List String → List String) (entries : List String)
    (h : ¬((layerCands entries).isEmpty = true)) :
    (checkImageFiles enum (.ok entries)).1 =
      namingErrsOf (layerCands entries) ++ baseErrsOf enum (layerCands entries)
        ++ seqErrsOf (layerCands entries) ++ rangeErrsOf (layerCands entries) := by
  simp only [checkImageFiles]
  rw [if_neg h]

/-- The warning list of the image stage when candidates exist. -/
theorem checkImageFiles_warns (enum : List String → List String) (entries : List String)
    (h : ¬((layerCands entries).isEmpty = true)) :
    (checkImageFiles enum (.ok entries)).2.1 = startWarnsOf (layerCands entries) := by
  simp only [checkImageFiles]
  rw [if_neg h]

theorem layerCands_not_empty_of_nums {entries : List String}
    (hne : collectNums (layerCands entries) ≠ []) :
    ¬((layerCands entries).isEmpty = true) := by
  rw [List.isEmpty_eq_true]
  intro h
  rw [h] at hne
  exact hne rfl

/-- C5 (confirmed): for a non-empty collection of pattern-matching layer
images whose sorted index list differs from the contiguous run starting at
the minimum observed index, the image stage emits exactly one
missing-numbers error, and its list is sorted strictly ascending and
contains exactly the values of the expected run that are not among the
observed indices. -/
theorem missing_numbers_exact (enum : List String → List String) (entries : List String)
    (hne : collectNums (layerCands entries) ≠ [])
    (hdiff : sortedNums (layerCands entries) ≠ expectedOf (layerCands entries)) :
    ∃ m M,
      m ∈ collectNums (layerCands entries) ∧
      (∀ x ∈ collectNums (layerCands entries), m ≤ x) ∧
      Msg.missingNumbers M ∈ (checkImageFiles enum (.ok entries)).1 ∧
      (checkImageFiles enum (.ok entries)).1.countP Msg.isMissingNumbers = 1 ∧
      M.Sorted (· < ·) ∧
      (∀ x, x ∈ M ↔ (x ∈ List.range' m (collectNums (layerCands entries)).length ∧
        x ∉ collectNums (layerCands entries))) := by
  refine ⟨startOf (layerCands entries), missingOf (layerCands entries), ?_, ?_, ?_, ?_, ?_, ?_⟩
  · have hlen := (sortedNums_perm (layerCands entries)).length_eq
    cases hs : sortedNums (layerCands entries) with
    | nil =>
      rw [hs] at hlen
      exact absurd (List.length_eq_zero.mp hlen.symm) hne
    | cons a t =>
      have : startOf (layerCands entries) = a := by rw [startOf, hs]; rfl
      rw [this]
      exact (sortedNums_perm _).mem_iff.mp (hs ▸ List.mem_cons_self a t)
  · intro x hx
    have hx' := (sortedNums_perm (layerCands entries)).mem_iff.mpr hx
    cases hs : sortedNums (layerCands entries) with
    | nil => rw [hs] at hx'; exact absurd hx' (List.not_mem_nil x)
    | cons a t =>
      have hst : startOf (layerCands entries) = a := by rw [startOf, hs]; rfl
      rw [hst]
      rw [hs] at hx'
      rcases List.mem_cons.mp hx' with rfl | hxt
      · exact Nat.le_refl x
      · have := sortedNums_sorted (layerCands entries)
        rw [hs] at this
        exact List.rel_of_sorted_cons this x hxt
  · rw [checkImageFiles_errs enum entries (layerCands_not_empty_of_nums hne)]
    refine List.mem_append_left _ (List.mem_append_right _ ?_)
    rw [seqErrsOf, if_pos hne, if_neg hdiff,
      if_neg (by rw [List.isEmpty_eq_true]; exact missingOf_ne_nil hdiff)]
    exact List.mem_singleton.mpr rfl
  · rw [checkImageFiles_errs enum entries (layerCands_not_empty_of_nums hne)]
    rw [List.countP_append, List.countP_append, List.countP_append]
    have h1 : (namingErrsOf (layerCands entries)).countP Msg.isMissingNumbers = 0 := by
      rw [List.countP_eq_zero]
      intro a ha
      obtain ⟨f, rfl⟩ := mem_namingErrsOf ha
      simp [Msg.isMissingNumbers]
    have h2 : (baseErrsOf enum (layerCands entries)).countP Msg.isMissingNumbers = 0 := by
      rw [List.countP_eq_zero]
      intro a ha
      obtain ⟨names, rfl⟩ := mem_baseErrsOf ha
      simp [Msg.isMissingNumbers]
    have h3 : (seqErrsOf (layerCands entries)).countP Msg.isMissingNumbers = 1 := by
      rw [seqErrsOf, if_pos hne, if_neg hdiff,
        if_neg (by rw [List.isEmpty_eq_true]; exact missingOf_ne_nil hdiff)]
      simp [List.countP_cons, Msg.isMissingNumbers]
    have h4 : (rangeErrsOf (layerCands entries)).countP Msg.isMissingNumbers = 0 := by
      rw [List.countP_eq_zero]
      intro a ha
      obtain ⟨n, rfl⟩ := mem_rangeErrsOf ha
      simp [Msg.isMissingNumbers]
    rw [h1, h2, h3, h4]
  · exact List.Pairwise.filter _ (List.pairwise_lt_range' _ _)
  · intro x
    rw [missingOf, expectedOf, List.mem_filter]
    simp

/-- C5 witness: images a00000.png and a00003.png — the stage reports
exactly one missing-numbers error listing [1]. -/
theorem missing_numbers_exact_witness :
    ∃ m M,
      m ∈ collectNums (layerCands ["a00000.png", "a00003.png"]) ∧
      (∀ x ∈ collectNums (layerCands ["a00000.png", "a00003.png"]), m ≤ x) ∧
      Msg.missingNumbers M ∈
        (checkImageFiles List.dedup (.ok ["a00000.png", "a00003.png"])).1 ∧
      (checkImageFiles List.dedup
        (.ok ["a00000.png", "a00003.png"])).1.countP Msg.isMissingNumbers = 1 ∧
      M.Sorted (· < ·) ∧
      (∀ x, x ∈ M ↔ (x ∈ List.range' m
          (collectNums (layerCands ["a00000.png", "a00003.png"])).length ∧
        x ∉ collectNums (layerCands ["a00000.png", "a00003.png"]))) :=
  missing_numbers_exact List.dedup ["a00000.png", "a00003.png"] (by decide) (by decide)

theorem digitsVal_foldl_lt (ds : List Char) (a : Nat)
    (h : ∀ c ∈ ds, isDigitCh c = true) :
    ds.foldl (fun a c => 10 * a + (c.toNat - 48)) a < (a + 1) * 10 ^ ds.length := by
  induction ds generalizing a with
  | nil => simp
  | cons c t ih =>
    have hd : c.toNat - 48 ≤ 9 := by
      have := h c (List.mem_cons_self c t)
      rw [isDigitCh, Bool.and_eq_true, decide_eq_true_eq, decide_eq_true_eq] at this
      omega
    have ht := ih (10 * a + (c.toNat - 48)) (fun x hx => h x (List.mem_cons_of_mem c hx))
    calc (c :: t).foldl (fun a c => 10 * a + (c.toNat - 48)) a
        = t.foldl (fun a c => 10 * a + (c.toNat - 48)) (10 * a + (c.toNat - 48)) := rfl
      _ < (10 * a + (c.toNat - 48) + 1) * 10 ^ t.length := ht
      _ ≤ ((a + 1) * 10) * 10 ^ t.length := by
          have : 10 * a + (c.toNat - 48) + 1 ≤ (a + 1) * 10 := by omega
          exact Nat.mul_le_mul_right _ this
      _ = (a + 1) * 10 ^ (t.length + 1) := by ring
      _ = (a + 1) * 10 ^ (c :: t).length := by rw [List.length_cons]

theorem digitsVal_lt (ds : List Char) (h : ∀ c ∈ ds, isDigitCh c = true) :
    digitsVal ds < 10 ^ ds.length := by
  have := digitsVal_foldl_lt ds 0 h
  simpa [digitsVal] using this

theorem mkLayer_snd_lt {baseRev ds : List Char} {b : String} {i : Nat}
    (h : mkLayer baseRev ds = some (b, i)) : i < 100000 := by
  rw [mkLayer] at h
  split at h
  · rename_i hcond
    obtain ⟨hlen, hall, -⟩ := hcond
    have hi : i = digitsVal ds.reverse := congrArg Prod.snd (Option.some.inj h).symm
    rw [hi]
    have hb := digitsVal_lt ds.reverse (by
      intro c hc
      rw [List.mem_reverse] at hc
      exact List.all_eq_true.mp hall c hc)
    rw [List.length_reverse, hlen] at hb
    exact hb
  · cases h

/-- Every index produced by the naming pattern is a five-digit value. -/
theorem matchLayer_snd_lt {s : String} {b : String} {i : Nat}
    (h : matchLayer s = some (b, i)) : i < 100000 := by
  rw [matchLayer, matchRev] at h
  split at h
  · cases h
  · exact mkLayer_snd_lt h

theorem layerMatch_snd_lt {f : String} {b : String} {i : Nat}
    (h : layerMatch f = some (b, i)) : i < 100000 :=
  matchLayer_snd_lt h

theorem length_collectNums_of_match {l : List String} {b : String}
    (h : ∀ f ∈ l, ∃ i, layerMatch f = some (b, i)) :
    (collectNums l).length = l.length := by
  induction l with
  | nil => rfl
  | cons f t ih =>
    obtain ⟨i, hi⟩ := h f (List.mem_cons_self f t)
    rw [collectNums, List.filterMap_cons] at *
    rw [hi]
    simp only [Option.map_some']
    rw [List.length_cons, ih (fun g hg => h g (List.mem_cons_of_mem f hg))]
    rfl

theorem dedup_const {l : List String} {b : String} (hne : l ≠ [])
    (hall : ∀ x ∈ l, x = b) : l.dedup = [b] := by
  induction l with
  | nil => exact absurd rfl hne
  | cons a t ih =>
    have ha : a = b := hall a (List.mem_cons_self a t)
    subst ha
    rcases eq_or_ne t [] with rfl | htne
    · simp
    · have hd : t.dedup = [a] :=
        ih htne (fun x hx => hall x (List.mem_cons_of_mem a hx))
      have hat : a ∈ t := List.mem_dedup.mp (by rw [hd]; exact List.mem_singleton.mpr rfl)
      rw [List.dedup_cons_of_mem hat, hd]

/-- C8 (confirmed): for a non-empty set of layer images all matching the
pattern with one base name and indices forming exactly the contiguous run
k..k+N-1, the image stage emits no errors at all, and emits the
doesn't-start-at-zero warning (with the start formatted as five digits)
exactly when k is positive. -/
theorem contiguous_run_no_errors (enum : List String → List String)
    (entries : List String) (b : String) (k : Nat)
    (hcne : layerCands entries ≠ [])
    (hmatch : ∀ f ∈ layerCands entries, ∃ i, layerMatch f = some (b, i))
    (hperm : (collectNums (layerCands entries)).Perm
      (List.range' k (layerCands entries).length)) :
    (checkImageFiles enum (.ok entries)).1 = [] ∧
    (checkImageFiles enum (.ok entries)).2.1 =
      (if k = 0 then [] else [Msg.notStartAtZero (fmt05 k)]) := by
  have hlen : (collectNums (layerCands entries)).length = (layerCands entries).length :=
    length_collectNums_of_match hmatch
  have hNpos : 0 < (layerCands entries).length := List.length_pos.mpr hcne
  have hnums_ne : collectNums (layerCands entries) ≠ [] := by
    intro h
    rw [h] at hlen
    rw [← hlen] at hNpos
    exact absurd hNpos (by simp)
  have hsorted_eq : sortedNums (layerCands entries) =
      List.range' k (layerCands entries).length := by
    refine List.eq_of_perm_of_sorted ((sortedNums_perm _).trans hperm)
      (sortedNums_sorted _) (List.pairwise_le_range' _ _)
  have hstart : startOf (layerCands entries) = k := by
    rw [startOf, hsorted_eq]
    cases hN : (layerCands entries).length with
    | zero => rw [hN] at hNpos; exact absurd hNpos (by simp)
    | succ n => rfl
  have hexp : expectedOf (layerCands entries) = sortedNums (layerCands entries) := by
    rw [expectedOf, hstart, hlen, hsorted_eq]
  have hnaming : namingErrsOf (layerCands entries) = [] := by
    rw [namingErrsOf, List.filterMap_eq_nil_iff]
    intro f hf
    obtain ⟨i, hi⟩ := hmatch f hf
    rw [hi]
    rfl
  have hbases : baseErrsOf enum (layerCands entries) = [] := by
    have hall : ∀ x ∈ basesOf (layerCands entries), x = b := by
      intro x hx
      rw [basesOf, List.mem_filterMap] at hx
      obtain ⟨f, hf, hfx⟩ := hx
      obtain ⟨i, hi⟩ := hmatch f hf
      rw [hi] at hfx
      exact (Option.some.inj hfx).symm
    have hbne : basesOf (layerCands entries) ≠ [] := by
      obtain ⟨f, hf⟩ := List.exists_mem_of_ne_nil _ hcne
      obtain ⟨i, hi⟩ := hmatch f hf
      intro hnil
      have : b ∈ basesOf (layerCands entries) := by
        rw [basesOf, List.mem_filterMap]
        exact ⟨f, hf, by rw [hi]; rfl⟩
      rw [hnil] at this
      exact List.not_mem_nil b this
    rw [baseErrsOf, dedup_const hbne hall, if_neg (by simp)]
  have hseq : seqErrsOf (layerCands entries) = [] := by
    rw [seqErrsOf, if_pos hnums_ne, if_pos hexp.symm]
  have hrange : rangeErrsOf (layerCands entries) = [] := by
    rw [rangeErrsOf, if_pos hnums_ne, List.filterMap_eq_nil_iff]
    intro n hn
    have hn' := (sortedNums_perm (layerCands entries)).mem_iff.mp hn
    rw [collectNums, List.mem_filterMap] at hn'
    obtain ⟨f, hf, hfn⟩ := hn'
    obtain ⟨i, hi⟩ := hmatch f hf
    rw [hi] at hfn
    have : i = n := Option.some.inj hfn
    subst this
    rw [if_neg (by have := layerMatch_snd_lt hi; omega)]
  have hempty : ¬((layerCands entries).isEmpty = true) := by
    rw [List.isEmpty_eq_true]
    exact hcne
  constructor
  · rw [checkImageFiles_errs enum entries hempty, hnaming, hbases, hseq, hrange]
    rfl
  · rw [checkImageFiles_warns enum entries hempty, startWarnsOf, if_pos hnums_ne, hstart]
    by_cases hk : k = 0
    · rw [if_neg (by simp [hk]), if_pos hk]
    · rw [if_pos hk, if_neg hk]

/-- C8 witness: two images a00003.png, a00004.png with contiguous indices
starting at 3 — no errors, and the start warning with "00003". -/
theorem contiguous_run_no_errors_witness :
    (checkImageFiles List.dedup (.ok ["a00003.png", "a00004.png"])).1 = [] ∧
    (checkImageFiles List.dedup (.ok ["a00003.png", "a00004.png"])).2.1 =
      (if 3 = 0 then [] else [Msg.notStartAtZero (fmt05 3)]) := by
  refine contiguous_run_no_errors List.dedup ["a00003.png", "a00004.png"] "a" 3
    (by decide) ?_ (by decide)
  intro f hf
  have hc : layerCands ["a00003.png", "a00004.png"] = ["a00003.png", "a00004.png"] := by
    decide
  rw [hc] at hf
  simp only [List.mem_cons, List.not_mem_nil, or_false] at hf
  rcases hf with rfl | rfl
  · exact ⟨3, by decide⟩
  · exact ⟨4, by decide⟩

/-! ### C10: extra digits fold into the base name -/

theorem takeWhile_eq_self_of_forall {p : Char → Bool} {l : List Char}
    (h : ∀ c ∈ l, p c = true) : l.takeWhile p = l :=
  List.takeWhile_eq_self_iff.mpr h

theorem isDigitCh_ne_newline {c : Char} (h : isDigitCh c = true) : c ≠ '\n' := by
  intro hEq
  subst hEq
  exact absurd h (by decide)

theorem isDigitCh_ne_slash {c : Char} (h : isDigitCh c = true) : c ≠ '/' := by
  intro hEq
  subst hEq
  exact absurd h (by decide)

/-- The pattern on a filename of the shape `base ++ digits ++ ".png"` with
a newline-free non-empty base and exactly five digits: the match succeeds
with those groups. -/
theorem matchLayer_png (base ds : List Char)
    (hb : base ≠ []) (hbn : ∀ c ∈ base, c ≠ '\n')
    (hd : ∀ c ∈ ds, isDigitCh c = true) (hlen : ds.length = 5) :
    matchLayer ⟨base ++ ds ++ ['.', 'p', 'n', 'g']⟩ = some (⟨base⟩, digitsVal ds) := by
  have hr0 : (base ++ ds ++ ['.', 'p', 'n', 'g']).reverse
      = 'g' :: 'n' :: 'p' :: '.' :: (ds.reverse ++ base.reverse) := by
    rw [List.reverse_append, List.reverse_append]
    rfl
  have hadj : newlineAdjust ('g' :: 'n' :: 'p' :: '.' :: (ds.reverse ++ base.reverse))
      = 'g' :: 'n' :: 'p' :: '.' :: (ds.reverse ++ base.reverse) := by
    rw [newlineAdjust, List.head?_cons, if_neg (by simp)]
  have hext : extLenOf ('g' :: 'n' :: 'p' :: '.' :: (ds.reverse ++ base.reverse))
      = some 4 := by
    rw [extLenOf, if_pos]
    rfl
  have hrevlen : ds.reverse.length = 5 := by rw [List.length_reverse, hlen]
  have htake5 : (ds.reverse ++ base.reverse).take 5 = ds.reverse :=
    List.take_left' hrevlen
  have hdrop5 : (ds.reverse ++ base.reverse).drop 5 = base.reverse :=
    List.drop_left' hrevlen
  have htw : base.reverse.takeWhile (fun c => decide (c ≠ '\n')) = base.reverse := by
    refine takeWhile_eq_self_of_forall ?_
    intro c hc
    rw [List.mem_reverse] at hc
    exact decide_eq_true (hbn c hc)
  have hmk : mkLayer base.reverse ds.reverse = some (⟨base⟩, digitsVal ds) := by
    rw [mkLayer, if_pos]
    · rw [List.reverse_reverse, List.reverse_reverse]
    · refine ⟨hrevlen, ?_, ?_⟩
      · rw [List.all_eq_true]
        intro c hc
        rw [List.mem_reverse] at hc
        exact hd c hc
      · rw [Ne, List.reverse_eq_nil_iff]
        exact hb
  rw [matchLayer]
  rw [show (String.mk (base ++ ds ++ ['.', 'p', 'n', 'g'])).data
    = base ++ ds ++ ['.', 'p', 'n', 'g'] from rfl]
  rw [hr0, hadj, matchRev, hext]
  show mkLayer _ _ = _
  rw [show ('g' :: 'n' :: 'p' :: '.' :: (ds.reverse ++ base.reverse)).drop 4
    = ds.reverse ++ base.reverse from rfl]
  rw [htake5, hdrop5, htw, hmk]

theorem no_slash_not_reserved {s : String} (h : '/' ∉ s.data) :
    reservedEntry s = false := by
  rw [reservedEntry, Bool.or_eq_false_iff]
  constructor
  · rw [pyStartsWith, decide_eq_false_iff_not]
    intro hEq
    have hsl : '/' ∈ "thumbnail/".data := by decide
    rw [← hEq] at hsl
    exact h (List.take_subset _ _ hsl)
  · rw [pyStartsWith, decide_eq_false_iff_not]
    intro hEq
    have hsl : '/' ∈ "preview/".data := by decide
    rw [← hEq] at hsl
    exact h (List.take_subset _ _ hsl)

theorem pyBasename_of_no_slash {s : String} (h : '/' ∉ s.data) : pyBasename s = s := by
  rw [pyBasename]
  rw [takeWhile_eq_self_of_forall (fun c hc => ?_), List.reverse_reverse]
  · rw [decide_eq_true_iff]
    rw [List.mem_reverse] at hc
    intro hEq
    exact h (hEq ▸ hc)

/-- C10 (confirmed): a root-level candidate whose stem ends in more than
five decimal digits still matches the naming pattern — the last five
digits become the index and the preceding digits fold into the base name —
so the image stage emits no error for it, and the resulting base name
differs from the stem without the extra digits. -/
theorem extra_digits_fold_into_base (enum : List String → List String)
    (q : String) (l1 l2 : List Char)
    (h1 : l1 ≠ []) (hd1 : ∀ c ∈ l1, isDigitCh c = true)
    (hd2 : ∀ c ∈ l2, isDigitCh c = true) (hlen : l2.length = 5)
    (hq : ∀ c ∈ q.data, c ≠ '\n' ∧ c ≠ '/') :
    matchLayer ⟨q.data ++ l1 ++ l2 ++ ['.', 'p', 'n', 'g']⟩ =
      some (⟨q.data ++ l1⟩, digitsVal l2) ∧
    (⟨q.data ++ l1⟩ : String) ≠ q ∧
    (checkImageFiles enum
      (.ok [⟨q.data ++ l1 ++ l2 ++ ['.', 'p', 'n', 'g']⟩])).1 = [] := by
  have hbase_ne : q.data ++ l1 ≠ [] := by
    intro hEq
    exact h1 (List.append_eq_nil.mp hEq).2
  have hbase_nl : ∀ c ∈ q.data ++ l1, c ≠ '\n' := by
    intro c hc
    rcases List.mem_append.mp hc with hc | hc
    · exact (hq c hc).1
    · exact isDigitCh_ne_newline (hd1 c hc)
  have hmatch : matchLayer ⟨q.data ++ l1 ++ l2 ++ ['.', 'p', 'n', 'g']⟩ =
      some (⟨q.data ++ l1⟩, digitsVal l2) :=
    matchLayer_png (q.data ++ l1) l2 hbase_ne hbase_nl hd2 hlen
  have hnoslash : '/' ∉ (q.data ++ l1 ++ l2 ++ ['.', 'p', 'n', 'g']) := by
    intro hc
    rcases List.mem_append.mp hc with hc | hc
    · rcases List.mem_append.mp hc with hc | hc
      · rcases List.mem_append.mp hc with hc | hc
        · exact (hq _ hc).2 rfl
        · exact isDigitCh_ne_slash (hd1 _ hc) rfl
      · exact isDigitCh_ne_slash (hd2 _ hc) rfl
    · simp at hc
  refine ⟨hmatch, ?_, ?_⟩
  · intro hEq
    have := congrArg (fun s => s.data.length) hEq
    simp only [List.length_append] at this
    have : l1.length = 0 := by omega
    exact h1 (List.length_eq_zero.mp this)
  · set f : String := ⟨q.data ++ l1 ++ l2 ++ ['.', 'p', 'n', 'g']⟩ with hfdef
    have hfd : f.data = q.data ++ l1 ++ l2 ++ ['.', 'p', 'n', 'g'] := rfl
    have hlm : layerMatch f = some (⟨q.data ++ l1⟩, digitsVal l2) := by
      rw [layerMatch, pyBasename_of_no_slash hnoslash]
      exact hmatch
    have hrev : f.data.reverse
        = 'g' :: 'n' :: 'p' :: '.' :: (l2.reverse ++ (q.data ++ l1).reverse) := by
      rw [hfd, List.reverse_append, List.reverse_append]
      rfl
    have hends : pyEndsWith (pyLower f) ".png" = true := by
      rw [pyEndsWith, pyLower, decide_eq_true_eq]
      show (f.data.map Char.toLower).reverse.take 4 = ['g', 'n', 'p', '.']
      rw [← List.map_reverse, hrev]
      rfl
    have hcont : f.data.contains '/' = false := by
      rw [← Bool.not_eq_true]
      intro hc
      simp only [List.contains_eq_any_beq, List.any_eq_true, beq_iff_eq] at hc
      obtain ⟨x, hx, rfl⟩ := hc
      exact hnoslash hx
    have hisL : isLayerImage f = true := by
      rw [isLayerImage, hends, no_slash_not_reserved hnoslash, hcont]
      rfl
    have hcands : layerCands [f] = [f] := by
      rw [layerCands, List.filter_cons, hisL]
      rfl
    have hempty : ¬((layerCands [f]).isEmpty = true) := by
      rw [hcands]
      simp
    have hnums : collectNums [f] = [digitsVal l2] := by
      rw [collectNums]
      simp [hlm]
    have h1' : namingErrsOf [f] = [] := by
      rw [namingErrsOf]
      simp [hlm]
    have h2' : baseErrsOf enum [f] = [] := by
      have hb : basesOf [f] = [(⟨q.data ++ l1⟩ : String)] := by
        rw [basesOf]
        simp [hlm]
      rw [baseErrsOf, hb]
      simp
    have hsort : sortedNums [f] = [digitsVal l2] := by
      rw [sortedNums, hnums]
      rfl
    have hstart : startOf [f] = digitsVal l2 := by
      rw [startOf, hsort]
      rfl
    have hexp : expectedOf [f] = [digitsVal l2] := by
      rw [expectedOf, hstart, hnums]
      rfl
    have h3' : seqErrsOf [f] = [] := by
      rw [seqErrsOf, if_pos (by rw [hnums]; exact List.cons_ne_nil _ _),
        if_pos (by rw [hsort, hexp])]
    have h4' : rangeErrsOf [f] = [] := by
      rw [rangeErrsOf, if_pos (by rw [hnums]; exact List.cons_ne_nil _ _), hsort]
      have hvl : ¬(99999 < digitsVal l2) := by
        have := digitsVal_lt l2 hd2
        rw [hlen] at this
        omega
      rw [List.filterMap_cons]
      rw [if_neg hvl]
      rfl
    rw [checkImageFiles_errs enum [f] hempty, hcands, h1', h2', h3', h4']
    rfl

/-- C10 witness: foo123456.png parses as base "foo1", index 23456, with no
error from the image stage, and the base differs from "foo". -/
theorem extra_digits_fold_into_base_witness :
    matchLayer ⟨"foo".data ++ ['1'] ++ ['2', '3', '4', '5', '6'] ++ ['.', 'p', 'n', 'g']⟩ =
      some (⟨"foo".data ++ ['1']⟩, digitsVal ['2', '3', '4', '5', '6']) ∧
    (⟨"foo".data ++ ['1']⟩ : String) ≠ "foo" ∧
    (checkImageFiles List.dedup
      (.ok [⟨"foo".data ++ ['1'] ++ ['2', '3', '4', '5', '6'] ++ ['.', 'p', 'n', 'g']⟩])).1 =
      [] :=
  extra_digits_fold_into_base List.dedup "foo" ['1'] ['2', '3', '4', '5', '6']
    (by decide) (by decide) (by decide) (by decide) (by decide)

/-! ### C9: determinism up to set-enumeration order -/

theorem zipErrs_indep (e₁ e₂ : List String → List String)
    (z : Except ZipErr (List String)) :
    (checkZipStructure e₁ z).1 = (checkZipStructure e₂ z).1 := by
  rcases z with e | entries
  · rcases e with _ | m <;> rfl
  · simp only [checkZipStructure]
    by_cases hroot :
        (entries.filter (fun f => countSlash f = 0 || countSlash f = 1)).isEmpty = true
    · rw [if_pos hroot, if_pos hroot]
    · rw [if_neg hroot, if_neg hroot]
      by_cases hsub : entries.any (fun f => 0 < countSlash f && !reservedEntry f) = true
      · rw [if_pos hsub, if_pos hsub]
        split <;> split <;> rfl
      · rw [if_neg hsub, if_neg hsub]

theorem zipWarns_perm {e₁ e₂ : List String → List String}
    (h₁ : ValidEnum e₁) (h₂ : ValidEnum e₂) (z : Except ZipErr (List String)) :
    (checkZipStructure e₁ z).2.Perm (checkZipStructure e₂ z).2 := by
  rcases z with e | entries
  · rcases e with _ | m <;> exact List.Perm.refl _
  · simp only [checkZipStructure]
    by_cases hroot :
        (entries.filter (fun f => countSlash f = 0 || countSlash f = 1)).isEmpty = true
    · rw [if_pos hroot, if_pos hroot]
    · rw [if_neg hroot, if_neg hroot]
      by_cases hsub : entries.any (fun f => 0 < countSlash f && !reservedEntry f) = true
      · rw [if_pos hsub, if_pos hsub]
        have hp := validEnum_perm h₁ h₂ (offendingFolders entries)
        by_cases hf1 : (e₁ (offendingFolders entries)).isEmpty = true
        · have hn1 : e₁ (offendingFolders entries) = [] := List.isEmpty_eq_true.mp hf1
          have hn2 : e₂ (offendingFolders entries) = [] := by
            have := hp.symm
            rw [hn1] at this
            exact this.eq_nil
          rw [if_pos hf1, if_pos (by rw [List.isEmpty_eq_true]; exact hn2)]
        · have hn2 : ¬((e₂ (offendingFolders entries)).isEmpty = true) := by
            rw [List.isEmpty_eq_true] at hf1 ⊢
            intro hnil
            have := hp
            rw [hnil] at this
            exact hf1 this.eq_nil
          rw [if_neg hf1, if_neg hn2]
          exact hp.map Msg.subfolder
      · rw [if_neg hsub, if_neg hsub]

theorem imageStage_enum {e₁ e₂ : List String → List String}
    (h₁ : ValidEnum e₁) (h₂ : ValidEnum e₂) (z : Except ZipErr (List String)) :
    List.Forall₂ MsgEquiv (checkImageFiles e₁ z).1 (checkImageFiles e₂ z).1 ∧
    (checkImageFiles e₁ z).2.1 = (checkImageFiles e₂ z).2.1 ∧
    (checkImageFiles e₁ z).2.2 = (checkImageFiles e₂ z).2.2 := by
  rcases z with e | entries
  · exact ⟨forallTwo_msgEquiv_refl _, rfl, rfl⟩
  · simp only [checkImageFiles]
    by_cases hemp : (layerCands entries).isEmpty = true
    · rw [if_pos hemp, if_pos hemp]
      exact ⟨forallTwo_msgEquiv_refl _, rfl, rfl⟩
    · rw [if_neg hemp, if_neg hemp]
      refine ⟨?_, rfl, rfl⟩
      refine List.rel_append (List.rel_append
        (List.rel_append (forallTwo_msgEquiv_refl _) ?_)
        (forallTwo_msgEquiv_refl _)) (forallTwo_msgEquiv_refl _)
      rw [baseErrsOf, baseErrsOf]
      by_cases hb : 1 < (basesOf (layerCands entries)).dedup.length
      · rw [if_pos hb, if_pos hb]
        exact List.Forall₂.cons (validEnum_perm h₁ h₂ _) List.Forall₂.nil
      · rw [if_neg hb, if_neg hb]
        exact List.Forall₂.nil

/-- C9 (corrected): for a fixed archive, two runs differing only in the
hash-seed-dependent iteration order of the two Python sets (the offending
folders and the base names) produce the same errors up to the rendering
order inside the multiple-base-names message, and the same warnings up to
the order of the per-folder subfolder warnings; everything else is
identical. -/
theorem validate_enum_invariant (a : Archive) (e₁ e₂ : List String → List String)
    (h₁ : ValidEnum e₁) (h₂ : ValidEnum e₂) :
    List.Forall₂ MsgEquiv (validate e₁ a).1 (validate e₂ a).1 ∧
    (validate e₁ a).2.Perm (validate e₂ a).2 := by
  by_cases hpe : a.pathExists = true
  · have himg := imageStage_enum h₁ h₂ a.zipOpen
    have hz1 := zipErrs_indep e₁ e₂ a.zipOpen
    have hz2 := zipWarns_perm h₁ h₂ a.zipOpen
    simp only [validate, hpe, if_true]
    constructor
    · refine List.rel_append (List.rel_append (List.rel_append
        (List.rel_append (forallTwo_msgEquiv_of_eq hz1) (forallTwo_msgEquiv_refl _))
        (forallTwo_msgEquiv_refl _)) himg.1) (forallTwo_msgEquiv_of_eq ?_)
      rw [himg.2.2]
    · refine List.Perm.append hz2 ?_
      rw [himg.2.1]
  · simp only [validate, hpe, if_false]
    exact ⟨forallTwo_msgEquiv_refl _, List.Perm.refl _⟩

/-- C9 witness: the invariance applied to a concrete archive and two
concrete valid enumerations (first-occurrence order and its reverse). -/
theorem validate_enum_invariant_witness :
    List.Forall₂ MsgEquiv
      (validate List.dedup ⟨"x.sl1s", true, .ok ["a/x.png", "b/y.png"], fun _ => []⟩).1
      (validate (fun l => l.dedup.reverse)
        ⟨"x.sl1s", true, .ok ["a/x.png", "b/y.png"], fun _ => []⟩).1 ∧
    (validate List.dedup ⟨"x.sl1s", true, .ok ["a/x.png", "b/y.png"], fun _ => []⟩).2.Perm
      (validate (fun l => l.dedup.reverse)
        ⟨"x.sl1s", true, .ok ["a/x.png", "b/y.png"], fun _ => []⟩).2 :=
  validate_enum_invariant _ List.dedup (fun l => l.dedup.reverse)
    validEnum_dedup validEnum_dedup_reverse

/-- C9 counterexample: the same archive validated under two legitimate set
enumeration orders yields warning sequences in different orders, so two
runs of the program need not produce identical ordered output. -/
theorem set_order_changes_warnings :
    ValidEnum List.dedup ∧ ValidEnum (fun l => l.dedup.reverse) ∧
    (validate List.dedup ⟨"x.sl1s", true, .ok ["a/x.png", "b/y.png"], fun _ => []⟩).2 ≠
      (validate (fun l => l.dedup.reverse)
        ⟨"x.sl1s", true, .ok ["a/x.png", "b/y.png"], fun _ => []⟩).2 :=
  ⟨validEnum_dedup, validEnum_dedup_reverse, by decide⟩

/-- C6 witness: numFast = 7 against two images a00000.png, a00001.png —
both the count-mismatch and the max-index checks fire together. -/
theorem numfast_checks_witness :
    Msg.numFastCountMismatch 7 2 ∈
      checkConfigConsistency (some cfgNumFast7) ["a00000.png", "a00001.png"] ∧
    Msg.lastNumberMismatch 1 6 ∈
      checkConfigConsistency (some cfgNumFast7) ["a00000.png", "a00001.png"] := by
  have h := numfast_checks cfgNumFast7 ["a00000.png", "a00001.png"] none "7"
    (by decide) (by decide) (by decide)
  have h2 := h.2 7 (by decide)
  exact ⟨h2.2.1.mpr (by decide), (h2.2.2 (by decide)).mpr (by decide)⟩

end SL1S
